import Mathlib

/-!
# A verification development for the `graphflow` package

This file gives a shallow embedding of the core of the `graphflow` Go
package: the graph data model (`Graphflow`), its construction operations
(`AddTask`, `AddPath`, task groups), the structural validator
(`validateTasks`), and the traversal engine (`execute` / `Run`).

Modelling conventions:
* Go task objects are identified by reference; we model task identity with
  `TaskId := Nat` and keep the behaviour of each task in a map
  `defs : TaskId → TaskImpl V`.  The built-in `StartTask` and `EndTask`
  types have the inherited no-op `Execute`, so they are dedicated
  constructors whose execution does nothing; custom tasks carry an
  arbitrary state-transition function (the body of their `Execute`,
  which may mutate the shared context, set the task's exit path, and
  report an error).
* The Go `paths` field is `map[TaskIntf]map[PathCondition]TaskIntf`;
  we keep the chronological log of `AddPath` calls and look a pair up by
  taking the *last* matching entry, which is exactly the Go map
  overwrite semantics (keys are never deleted).
* The `ExecutionContext` is a string-keyed mutable store; we embed it as
  an association list with in-place update, parametric in the value
  type `V` (Go stores `interface\x7b\x7d`).
* Each task's mutable `exitPath` field lives in `exits : TaskId → PathCondition`
  on the graph state (it persists across runs, as the Go fields do).
* The traversal loop is embedded with explicit fuel; `Run` supplies
  `stdFuel`, and the development proves that this fuel always suffices,
  which is the termination theorem for the loop.
* Errors are structured (`GFError`), mirroring which data each Go error
  message carries (the offending task, the conflicting pairing, the two
  group names, or the message returned by a failing `Execute`).
-/

abbrev TaskId := Nat

/-- The Go `PathCondition` enumeration (`ALWAYS = 0` is the zero value). -/
inductive PathCondition where
  | ALWAYS
  | YES
  | NO
  | ERROR
deriving DecidableEq, Repr

/-- The string-keyed shared store (`ExecutionContext` in Go), as an
association list with at most one entry per key. -/
structure ExecutionContext (V : Type) where
  values : List (String × V)
deriving DecidableEq, Repr

/-- In-place update of an association list: replace the entry for `k` if
present, otherwise append (the Go map assignment `ctx.values[key] = value`). -/
def setEntry {V : Type} : List (String × V) → String → V → List (String × V)
  | [], k, v => [(k, v)]
  | (k', v') :: rest, k, v =>
    if k' = k then (k, v) :: rest else (k', v') :: setEntry rest k v

/-- `ExecutionContext.Set` from the source. -/
def ExecutionContext.Set {V : Type} (ctx : ExecutionContext V) (k : String) (v : V) :
    ExecutionContext V :=
  ⟨setEntry ctx.values k v⟩

/-- `ExecutionContext.Get` from the source (a missing key yields `none`,
the Go `nil`). -/
def ExecutionContext.Get {V : Type} (ctx : ExecutionContext V) (k : String) : Option V :=
  (ctx.values.find? (fun p => p.1 = k)).map (fun p => p.2)

/-- The behaviour of a registered task.  `startTask` and `endTask` are the
package-provided `StartTask` / `EndTask` types, whose inherited `Execute`
does nothing.  A `custom` task's body receives the context and the task's
current exit path, and produces (optional error, new context, new exit
path) — it may mutate the context and call `SetExitPath` before failing. -/
inductive TaskImpl (V : Type) where
  | startTask
  | endTask
  | custom (body : ExecutionContext V → PathCondition →
      Option String × ExecutionContext V × PathCondition)

/-- The Go type assertion `task.(*StartTask)`: only the exact built-in
type matches. -/
def TaskImpl.isStart {V : Type} : TaskImpl V → Bool
  | .startTask => true
  | _ => false

/-- The Go type assertion `task.(*EndTask)`. -/
def TaskImpl.isEnd {V : Type} : TaskImpl V → Bool
  | .endTask => true
  | _ => false

/-- Invoking `task.Execute(ctx)` and then reading `task.ExitPath()`:
returns (optional error, context after the call, exit path after the
call).  The built-in start/end tasks leave both untouched. -/
def TaskImpl.executeTask {V : Type} :
    TaskImpl V → ExecutionContext V → PathCondition →
    Option String × ExecutionContext V × PathCondition
  | .startTask, ctx, p => (none, ctx, p)
  | .endTask, ctx, p => (none, ctx, p)
  | .custom body, ctx, p => body ctx p

/-- A named task group (`TaskGroup` in Go); groups are compared by
identity in the source, which here is their index in the graph's group
list. -/
structure TaskGroup where
  name : String
  tasks : List TaskId
deriving DecidableEq, Repr

/-- The structured content of each error the package can return.
`taskFailed` wraps the error returned by a task's own `Execute`. -/
inductive GFError where
  | noEndTask
  | noStartTask
  | alwaysAndYes (t : TaskId)
  | alwaysAndNo (t : TaskId)
  | yesWithoutNo (t : TaskId)
  | noWithoutYes (t : TaskId)
  | taskInTwoGroups (t : TaskId) (g1 g2 : String)
  | taskFailed (msg : String)
deriving DecidableEq, Repr

/-- Validation-phase errors (everything the package produces other than
propagating a task's own `Execute` failure). -/
def GFError.isStructural : GFError → Bool
  | .taskFailed _ => false
  | _ => true

/-- The `Graphflow` aggregate: registered tasks (in insertion order),
their behaviours, the groups, the `AddPath` log, each task's mutable
`exitPath` field, the stored context and the `executed` set of the last
run. -/
structure Graphflow (V : Type) where
  tasks : List TaskId
  defs : TaskId → TaskImpl V
  taskGroups : List TaskGroup
  paths : List (TaskId × PathCondition × TaskId)
  exits : TaskId → PathCondition
  context : ExecutionContext V
  executed : List TaskId

/-- `AddTask` appends to the task list. -/
def Graphflow.AddTask {V : Type} (gf : Graphflow V) (t : TaskId) : Graphflow V :=
  { gf with tasks := gf.tasks ++ [t] }

/-- `AddPath(from, condition, to)` records the edge; a later entry for
the same (source, condition) pair overwrites an earlier one at lookup
time, exactly as the Go nested-map assignment does. -/
def Graphflow.AddPath {V : Type} (gf : Graphflow V) (src : TaskId)
    (cond : PathCondition) (tgt : TaskId) : Graphflow V :=
  { gf with paths := gf.paths ++ [(src, cond, tgt)] }

/-- `NewTaskGroup` appends a fresh group. -/
def Graphflow.NewTaskGroup {V : Type} (gf : Graphflow V) (name : String) : Graphflow V :=
  { gf with taskGroups := gf.taskGroups ++ [⟨name, []⟩] }

/-- The Go map read `gf.paths[src][cond]`: the last `AddPath` entry for
the pair wins. -/
def lookupPath (paths : List (TaskId × PathCondition × TaskId))
    (src : TaskId) (cond : PathCondition) : Option TaskId :=
  (paths.reverse.find? (fun e => e.1 = src ∧ e.2.1 = cond)).map (fun e => e.2.2)

/-- The list of conditions on edges leaving `src` (the key set of
`gf.paths[src]`, possibly with repeats from overwrites — membership is
all the validator consults). -/
def pathConditionsOf (paths : List (TaskId × PathCondition × TaskId))
    (src : TaskId) : List PathCondition :=
  (paths.filter (fun e => e.1 = src)).map (fun e => e.2.1)

/-- The per-source condition check from `validateTasks`: the
`contains(conditions, ...)` if/else chain, verbatim. -/
def checkSrcConditions (conds : List PathCondition) (t : TaskId) : Option GFError :=
  if conds.contains .ALWAYS then
    if conds.contains .YES then some (.alwaysAndYes t)
    else if conds.contains .NO then some (.alwaysAndNo t)
    else none
  else if conds.contains .YES then
    if !conds.contains .NO then some (.yesWithoutNo t) else none
  else if conds.contains .NO then
    if !conds.contains .YES then some (.noWithoutYes t) else none
  else none

/-- The `for task := range gf.paths` loop of `validateTasks`: report the
first source whose outgoing condition set is in conflict. -/
def checkAllConditions {V : Type} (gf : Graphflow V) : Option GFError :=
  gf.paths.findSome? (fun e => checkSrcConditions (pathConditionsOf gf.paths e.1) e.1)

/-- Inner loop of the group check: scan all groups (with their index,
standing for Go pointer identity), looking for a group other than the
one at index `i` that also contains `t`.  `j` is the index of the head
of the remaining list. -/
def findOtherGroup (i : TaskId) (t : TaskId) :
    Nat → List TaskGroup → Option TaskGroup
  | _, [] => none
  | j, g :: rest =>
    if i ≠ j ∧ g.tasks.contains t then some g
    else findOtherGroup i t (j + 1) rest

/-- Outer loops of the group check in `validateTasks`: for each group and
each of its member tasks, search the other groups for the same task. -/
def checkGroupsAux (allGroups : List TaskGroup) :
    Nat → List TaskGroup → Option GFError
  | _, [] => none
  | i, g :: rest =>
    match g.tasks.findSome? (fun t =>
        (findOtherGroup i t 0 allGroups).map
          (fun g' => GFError.taskInTwoGroups t g.name g'.name)) with
    | some e => some e
    | none => checkGroupsAux allGroups (i + 1) rest

/-- The duplicate-group-membership check of `validateTasks`. -/
def checkGroups (groups : List TaskGroup) : Option GFError :=
  checkGroupsAux groups 0 groups

/-- `findStartTask`: first registered task of the exact `StartTask` type. -/
def Graphflow.findStartTask {V : Type} (gf : Graphflow V) : Option TaskId :=
  gf.tasks.find? (fun t => (gf.defs t).isStart)

/-- `findEndTask`: first registered task of the exact `EndTask` type. -/
def Graphflow.findEndTask {V : Type} (gf : Graphflow V) : Option TaskId :=
  gf.tasks.find? (fun t => (gf.defs t).isEnd)

/-- `validateTasks`: End-task presence, then per-source condition
conflicts, then duplicate group membership — first failure wins. -/
def Graphflow.validateTasks {V : Type} (gf : Graphflow V) : Option GFError :=
  match gf.findEndTask with
  | none => some .noEndTask
  | some _ =>
    match checkAllConditions gf with
    | some e => some e
    | none => checkGroups gf.taskGroups

/-- `visited[t] = true` on the Go map (a second insertion is a no-op);
the list keeps insertion order. -/
def insertVisited (v : List TaskId) (t : TaskId) : List TaskId :=
  if v.contains t then v else v ++ [t]

/-- The in-flight state of the traversal loop in `execute`. -/
structure LoopState (V : Type) where
  ctx : ExecutionContext V
  exits : TaskId → PathCondition
  queue : List TaskId
  visited : List TaskId
  trace : List TaskId

/-- What the loop leaves behind: the error (if any), the context and
exit paths as mutated, the local `visited` map, and the chronological
list of tasks whose `Execute` was invoked. -/
structure LoopResult (V : Type) where
  error : Option GFError
  ctx : ExecutionContext V
  exits : TaskId → PathCondition
  visited : List TaskId
  trace : List TaskId

/-- The exit-path-free observables of a loop result: error, final
context, visited set and execution trace. -/
def LoopResult.obs {V : Type} (r : LoopResult V) :
    Option GFError × ExecutionContext V × List TaskId × List TaskId :=
  (r.error, r.ctx, r.visited, r.trace)

/-- `task.SetExitPath(p)`: point update of the exit-path store. -/
def updateExits (exits : TaskId → PathCondition) (task : TaskId)
    (p : PathCondition) : TaskId → PathCondition :=
  fun t => if t = task then p else exits t

/-- One-for-one embedding of the `for` loop of `execute`: dequeue, mark
visited, run `Execute` (aborting on failure), read the task's exit path,
follow the unique matching edge, enqueueing its target if unvisited.
`fuel` bounds the number of iterations; `none` means fuel ran out (shown
impossible for `stdFuel` below). -/
def execLoop {V : Type} (defs : TaskId → TaskImpl V)
    (paths : List (TaskId × PathCondition × TaskId)) :
    Nat → LoopState V → Option (LoopResult V)
  | 0, _ => none
  | fuel + 1, st =>
    match st.queue with
    | [] => some ⟨none, st.ctx, st.exits, st.visited, st.trace⟩
    | task :: rest =>
      match (defs task).executeTask st.ctx (st.exits task) with
      | (some msg, ctx', p') =>
        some ⟨some (.taskFailed msg), ctx', updateExits st.exits task p',
          insertVisited st.visited task, st.trace ++ [task]⟩
      | (none, ctx', p') =>
        match lookupPath paths task p' with
        | some tgt =>
          if (insertVisited st.visited task).contains tgt then
            execLoop defs paths fuel
              ⟨ctx', updateExits st.exits task p', rest,
                insertVisited st.visited task, st.trace ++ [task]⟩
          else
            execLoop defs paths fuel
              ⟨ctx', updateExits st.exits task p', rest ++ [tgt],
                insertVisited (insertVisited st.visited task) tgt,
                st.trace ++ [task]⟩
        | none =>
          execLoop defs paths fuel
            ⟨ctx', updateExits st.exits task p', rest,
              insertVisited st.visited task, st.trace ++ [task]⟩

/-- Fuel supplied to the loop by `Run`; proved sufficient below (the
loop performs at most one iteration per distinct reachable task, and
every task ever enqueued beyond the start one is an edge target). -/
def stdFuel {V : Type} (gf : Graphflow V) : Nat :=
  gf.paths.length + 2

/-- The outcome of one `Run`: the graph as mutated (context, exit paths,
`executed` set) together with the returned error and the list of tasks
whose `Execute` was invoked, in order. -/
structure RunResult (V : Type) where
  graph : Graphflow V
  error : Option GFError
  trace : List TaskId

/-- `execute`: validation, start-task lookup, then the traversal loop.
On success `gf.executed` is set to the local visited map; on any failure
it keeps the empty value `Run` installed. -/
def Graphflow.executeRun {V : Type} (gf : Graphflow V) : Option (RunResult V) :=
  match gf.validateTasks with
  | some e => some ⟨gf, some e, []⟩
  | none =>
    match gf.findStartTask with
    | none => some ⟨gf, some .noStartTask, []⟩
    | some s =>
      match execLoop gf.defs gf.paths (stdFuel gf) ⟨gf.context, gf.exits, [s], [], []⟩ with
      | none => none
      | some r =>
        match r.error with
        | some e =>
          some ⟨{ gf with context := r.ctx, exits := r.exits }, some e, r.trace⟩
        | none =>
          some ⟨{ gf with context := r.ctx, exits := r.exits, executed := r.visited },
            none, r.trace⟩

/-- `Run(context)`: store the context, reset `executed` to the fresh
empty map, and delegate to `execute`. -/
def Graphflow.Run {V : Type} (gf : Graphflow V) (context : ExecutionContext V) :
    Option (RunResult V) :=
  ({ gf with context := context, executed := [] } : Graphflow V).executeRun

/-- Decidable projection of a `RunResult` (the graph's function-typed
fields dropped): final context, `executed` set, error, trace. -/
def RunResult.proj {V : Type} (r : RunResult V) :
    ExecutionContext V × List TaskId × Option GFError × List TaskId :=
  (r.graph.context, r.graph.executed, r.error, r.trace)

/-! ## Concrete graphs used to instantiate the theorems -/

/-- A graph with no registered tasks, no paths and no groups. -/
def emptyGF : Graphflow Nat :=
  { tasks := [], defs := fun _ => .custom (fun ctx p => (none, ctx, p)),
    taskGroups := [], paths := [], exits := fun _ => .ALWAYS,
    context := ⟨[]⟩, executed := [] }

/-- A graph with a start task only (no End-kind task registered). -/
def gfC3 : Graphflow Nat :=
  { emptyGF with tasks := [0], defs := fun _ => .startTask }

/-- A graph with an end task only (no Start-kind task registered). -/
def gfC4 : Graphflow Nat :=
  { emptyGF with tasks := [5], defs := fun _ => .endTask }

/-- Start and End registered, one outgoing edge labelled `ERROR` on the
start task: the validator accepts this outcome set. -/
def gfC1x : Graphflow Nat :=
  { emptyGF with
    tasks := [0, 2],
    defs := fun t => if t = 0 then .startTask else if t = 2 then .endTask
      else .custom (fun ctx p => (none, ctx, p)),
    paths := [(0, .ERROR, 2)] }

/-- Start → failing task → End.  The middle task writes `"k" ↦ 9` into
the context, then reports the error `"boom"`. -/
def gfC2x : Graphflow Nat :=
  { emptyGF with
    tasks := [0, 1, 2],
    defs := fun t =>
      if t = 0 then .startTask
      else if t = 2 then .endTask
      else .custom (fun ctx _ => (some "boom", ctx.Set "k" 9, .ALWAYS)),
    paths := [(0, .ALWAYS, 1), (1, .ALWAYS, 2)] }

/-- The per-source outgoing-outcome sets that `validateTasks` rejects:
`ALWAYS` mixed with `YES` or `NO`, or one of `YES`/`NO` without the
other. -/
def badConds (l : List PathCondition) : Bool :=
  (l.contains .ALWAYS && (l.contains .YES || l.contains .NO)) ||
  (l.contains .YES && !l.contains .NO) ||
  (l.contains .NO && !l.contains .YES)

/-- The error names a task whose outgoing edges really carry the
conflicting outcome pairing stated by the error. -/
def errNamesConflict (paths : List (TaskId × PathCondition × TaskId)) :
    GFError → Prop
  | .alwaysAndYes t => (pathConditionsOf paths t).contains .ALWAYS = true ∧
      (pathConditionsOf paths t).contains .YES = true
  | .alwaysAndNo t => (pathConditionsOf paths t).contains .ALWAYS = true ∧
      (pathConditionsOf paths t).contains .NO = true
  | .yesWithoutNo t => (pathConditionsOf paths t).contains .YES = true ∧
      (pathConditionsOf paths t).contains .NO = false
  | .noWithoutYes t => (pathConditionsOf paths t).contains .NO = true ∧
      (pathConditionsOf paths t).contains .YES = false
  | _ => False

/-- Start and End registered, one `YES` edge with no matching `NO` edge
on the start task. -/
def gfC1w : Graphflow Nat :=
  { gfC1x with paths := [(0, .YES, 2)] }

/-- Some task belongs to two different registered groups (groups are
identified by their position in the group list, the embedding of Go
pointer identity). -/
def SharedAcrossGroups (groups : List TaskGroup) : Prop :=
  ∃ i j gi gj t, i ≠ j ∧ groups.get? i = some gi ∧ groups.get? j = some gj ∧
    t ∈ gi.tasks ∧ t ∈ gj.tasks

/-- Deterministic task logic in the sense of the specification: each
custom task's `Execute` behaves as a function of the shared context
alone — it does not read its own leftover `exitPath` from a previous
run. -/
def CustomDet {V : Type} (defs : TaskId → TaskImpl V) : Prop :=
  ∀ t body, defs t = .custom body →
    ∀ ctx p p', body ctx p = body ctx p'

/-- The built-in no-op task kinds (`StartTask` / `EndTask`). -/
def TaskImpl.isBuiltin {V : Type} (i : TaskImpl V) : Bool :=
  i.isStart || i.isEnd

/-- All targets appearing in the edge log. -/
def pathTargets (paths : List (TaskId × PathCondition × TaskId)) : Finset TaskId :=
  (paths.map (fun e => e.2.2)).toFinset

/-- Decreasing measure for the traversal loop: queue length plus the
number of edge targets not yet visited. -/
def loopMeasure {V : Type} (paths : List (TaskId × PathCondition × TaskId))
    (st : LoopState V) : Nat :=
  st.queue.length + (pathTargets paths \ st.visited.toFinset).card

/-- Start and End only, no edges, no groups. -/
def gfC5 : Graphflow Nat :=
  { emptyGF with
    tasks := [0, 1],
    defs := fun t => if t = 0 then .startTask else .endTask }

/-- Task 5 in the two distinct groups "A" and "B", but no End-kind task
registered. -/
def gfC6x : Graphflow Nat :=
  { emptyGF with taskGroups := [⟨"A", [5]⟩, ⟨"B", [5]⟩] }

/-- A structurally valid graph except that task 7 is in both group "A"
and group "B". -/
def gfC6w : Graphflow Nat :=
  { emptyGF with
    tasks := [0, 2],
    defs := fun t => if t = 0 then .startTask else .endTask,
    taskGroups := [⟨"A", [7]⟩, ⟨"B", [7]⟩] }

/-- A valid Start/End graph whose single group contains task 0 twice. -/
def gfC10w : Graphflow Nat :=
  { emptyGF with
    tasks := [0, 2],
    defs := fun t => if t = 0 then .startTask else .endTask,
    taskGroups := [⟨"A", [0, 0]⟩] }

/-- Start → custom task (writes `"k" ↦ 7`, answers `YES`) → End, with a
`NO` edge to End as well so the outcome pairing validates. -/
def gfC8w : Graphflow Nat :=
  { emptyGF with
    tasks := [0, 1, 2],
    defs := fun t =>
      if t = 0 then .startTask
      else if t = 2 then .endTask
      else .custom (fun ctx _ => (none, ctx.Set "k" 7, .YES)),
    paths := [(0, .ALWAYS, 1), (1, .YES, 2), (1, .NO, 2)] }

/-! ## Basic lemmas about the validator -/

theorem checkSrcConditions_structural (conds : List PathCondition) (t : TaskId)
    (e : GFError) (h : checkSrcConditions conds t = some e) :
    e.isStructural = true := by
  unfold checkSrcConditions at h
  split_ifs at h <;> simp_all [GFError.isStructural] <;>
    (subst h; rfl)

theorem checkAllConditions_structural {V : Type} (gf : Graphflow V) (e : GFError)
    (h : checkAllConditions gf = some e) : e.isStructural = true := by
  obtain ⟨a, _, ha⟩ := List.exists_of_findSome?_eq_some h
  exact checkSrcConditions_structural _ _ _ ha

theorem checkGroupsAux_structural (allGroups : List TaskGroup) (l : List TaskGroup) :
    ∀ (i : Nat) (e : GFError), checkGroupsAux allGroups i l = some e →
    e.isStructural = true := by
  induction l with
  | nil => intro i e h; simp [checkGroupsAux] at h
  | cons g rest ih =>
    intro i e h
    unfold checkGroupsAux at h
    split at h
    · rename_i e' heq
      cases h
      obtain ⟨a, _, ha⟩ := List.exists_of_findSome?_eq_some heq
      obtain ⟨g', _, hg'⟩ := Option.map_eq_some'.mp ha
      subst hg'
      rfl
    · exact ih _ _ h

theorem validateTasks_structural {V : Type} (gf : Graphflow V) (e : GFError)
    (h : gf.validateTasks = some e) : e.isStructural = true := by
  unfold Graphflow.validateTasks at h
  split at h
  · cases h; rfl
  · split at h
    · rename_i e' heq
      cases h
      exact checkAllConditions_structural _ _ heq
    · exact checkGroupsAux_structural _ _ _ _ h

theorem findEndTask_eq_none {V : Type} (gf : Graphflow V)
    (h : ∀ t ∈ gf.tasks, (gf.defs t).isEnd = false) : gf.findEndTask = none := by
  rw [Graphflow.findEndTask, List.find?_eq_none]
  intro t ht
  simp [h t ht]

theorem findStartTask_eq_none {V : Type} (gf : Graphflow V)
    (h : ∀ t ∈ gf.tasks, (gf.defs t).isStart = false) : gf.findStartTask = none := by
  rw [Graphflow.findStartTask, List.find?_eq_none]
  intro t ht
  simp [h t ht]

/-! ## C7: AddPath replacement semantics -/

/-- C7: adding an edge for a (source, outcome) pair that already has an
edge silently replaces the previous target — the edge table maps the
pair to the new target only, every other (source, outcome) pair is
unaffected, and no error is possible (`AddPath` is total).  Hence at
most one target per (source, outcome) pair ever exists (`lookupPath`
returns at most one target by construction). -/
theorem c7_addpath_replaces {V : Type} (gf : Graphflow V) (src : TaskId)
    (cond : PathCondition) (tgt : TaskId) :
    lookupPath (gf.AddPath src cond tgt).paths src cond = some tgt ∧
    ∀ src' cond', src' ≠ src ∨ cond' ≠ cond →
      lookupPath (gf.AddPath src cond tgt).paths src' cond' =
        lookupPath gf.paths src' cond' := by
  constructor
  · simp [Graphflow.AddPath, lookupPath]
  · intro src' cond' hne
    rcases hne with hne | hne <;>
      simp [Graphflow.AddPath, lookupPath, Ne.symm hne]

/-- Witness for C7 at a concrete graph: re-adding (0, ALWAYS) rebinds the
target from 1 to 2, and the unrelated pair (0, YES) keeps its target. -/
theorem c7_witness :
    lookupPath ((emptyGF.AddPath 0 .ALWAYS 1).AddPath 0 .ALWAYS 2).paths 0 .ALWAYS
      = some 2 ∧
    lookupPath ((emptyGF.AddPath 0 .YES 3).AddPath 0 .ALWAYS 2).paths 0 .YES
      = some 3 := by
  constructor
  · exact (c7_addpath_replaces (emptyGF.AddPath 0 .ALWAYS 1) 0 .ALWAYS 2).1
  · have h := (c7_addpath_replaces (emptyGF.AddPath 0 .YES 3) 0 .ALWAYS 2).2
      0 .YES (Or.inr (by decide))
    rw [h]
    decide

theorem validateTasks_reset {V : Type} (gf : Graphflow V) (c : ExecutionContext V) :
    Graphflow.validateTasks { gf with context := c, executed := [] } =
      gf.validateTasks := rfl

/-! ## C3: a missing End-kind task aborts before any execution -/

/-- C3: when no registered task is of the End kind, `Run` fails with the
missing-end validation error and invokes no task's `Execute` (the trace
of invoked tasks is empty). -/
theorem c3_missing_end {V : Type} (gf : Graphflow V) (ctx : ExecutionContext V)
    (h : ∀ t ∈ gf.tasks, (gf.defs t).isEnd = false) :
    ∃ r, gf.Run ctx = some r ∧ r.error = some .noEndTask ∧ r.trace = [] := by
  have hend : ({ gf with context := ctx, executed := [] } : Graphflow V).findEndTask
      = none := findEndTask_eq_none _ h
  exact ⟨⟨{ gf with context := ctx, executed := [] }, some .noEndTask, []⟩,
    by simp [Graphflow.Run, Graphflow.executeRun, Graphflow.validateTasks, hend],
    rfl, rfl⟩

/-- Witness for C3: a graph whose only task is a start task. -/
theorem c3_witness :
    ∃ r, gfC3.Run ⟨[]⟩ = some r ∧ r.error = some .noEndTask ∧ r.trace = [] :=
  c3_missing_end gfC3 ⟨[]⟩ (by decide)

/-! ## C4: a missing Start-kind task aborts before any execution -/

/-- C4: when no registered task is of the Start kind, `Run` fails with a
structural (validation-phase) error and invokes no task's `Execute`;
moreover, whenever `validateTasks` itself passes, the error returned is
precisely the missing-start error produced by the executor's entry-point
lookup — after validation but before any task executes. -/
theorem c4_missing_start {V : Type} (gf : Graphflow V) (ctx : ExecutionContext V)
    (h : ∀ t ∈ gf.tasks, (gf.defs t).isStart = false) :
    ∃ r e, gf.Run ctx = some r ∧ r.error = some e ∧ e.isStructural = true ∧
      r.trace = [] ∧ (gf.validateTasks = none → e = .noStartTask) := by
  cases hv : gf.validateTasks with
  | some e =>
    refine ⟨⟨{ gf with context := ctx, executed := [] }, some e, []⟩, e, ?_, rfl,
      validateTasks_structural gf e hv, rfl, ?_⟩
    · simp [Graphflow.Run, Graphflow.executeRun, validateTasks_reset, hv]
    · intro hnone
      exact absurd hnone (by simp)
  | none =>
    have hstart : ({ gf with context := ctx, executed := [] } : Graphflow V).findStartTask
        = none := findStartTask_eq_none _ h
    refine ⟨⟨{ gf with context := ctx, executed := [] }, some .noStartTask, []⟩,
      .noStartTask, ?_, rfl, rfl, rfl, fun _ => rfl⟩
    simp [Graphflow.Run, Graphflow.executeRun, validateTasks_reset, hv, hstart]

/-- Witness for C4: a graph whose only task is an end task. -/
theorem c4_witness :
    ∃ r e, gfC4.Run ⟨[]⟩ = some r ∧ r.error = some e ∧ e.isStructural = true ∧
      r.trace = [] ∧ (gfC4.validateTasks = none → e = .noStartTask) :=
  c4_missing_start gfC4 ⟨[]⟩ (by decide)

/-! ## C1: the per-source outgoing-outcome check -/

theorem badConds_checkSrc_isSome (conds : List PathCondition) (t : TaskId)
    (h : badConds conds = true) : (checkSrcConditions conds t).isSome = true := by
  unfold checkSrcConditions
  split_ifs with h1 h2 h3 h4 h5 h6 h7 <;>
    simp_all [badConds]

theorem checkSrc_names (paths : List (TaskId × PathCondition × TaskId))
    (t : TaskId) (e : GFError)
    (h : checkSrcConditions (pathConditionsOf paths t) t = some e) :
    errNamesConflict paths e := by
  unfold checkSrcConditions at h
  split_ifs at h with h1 h2 h3 h4 h5 h6 h7 <;>
    (cases h; simp_all [errNamesConflict])

/-- C1 fails as literally stated: in `gfC1x` the start task's outgoing
outcome set is `[ERROR]` — neither `{ALWAYS}` alone nor `{YES, NO}` —
yet `Run` returns no error at all and the start task's `Execute` is
invoked (trace `[0]`). -/
theorem c1_counterexample :
    (gfC1x.Run ⟨[]⟩).map RunResult.proj = some (⟨[]⟩, [0], none, [0]) ∧
    pathConditionsOf gfC1x.paths 0 = [.ERROR] := by
  constructor <;> rfl

/-- C1 (amended): a source's outgoing outcome set is rejected exactly
when it mixes `ALWAYS` with `YES` or `NO`, or contains one of `YES`/`NO`
without the other (`badConds`); sets such as `\x7bERROR\x7d` alone pass.  For
every graph containing an End-kind task (the End check runs first), if
some source's outgoing set is bad then `Run` returns a validation error
naming an offending task together with its actual conflicting outcome
pairing, and no task's `Execute` is invoked.  Conversely any source
whose outgoing outcome set is `\x7bALWAYS\x7d` alone or exactly `\x7bYES, NO\x7d`
passes the per-source check. -/
theorem c1_outcome_validation :
    (∀ (V : Type) (gf : Graphflow V) (ctx : ExecutionContext V),
      (∃ t ∈ gf.tasks, (gf.defs t).isEnd = true) →
      (∃ e ∈ gf.paths, badConds (pathConditionsOf gf.paths e.1) = true) →
      ∃ r err, gf.Run ctx = some r ∧ r.error = some err ∧
        errNamesConflict gf.paths err ∧ r.trace = []) ∧
    (∀ (conds : List PathCondition) (t : TaskId),
      ((∀ c ∈ conds, c = .ALWAYS) ∨
        ((∀ c ∈ conds, c = .YES ∨ c = .NO) ∧
          conds.contains .YES = true ∧ conds.contains .NO = true)) →
      checkSrcConditions conds t = none) := by
  constructor
  · intro V gf ctx hend hbad
    have hfind : ({ gf with context := ctx, executed := [] } : Graphflow V).findEndTask.isSome
        = true := by
      rw [Graphflow.findEndTask, List.find?_isSome]
      exact hend
    obtain ⟨tEnd, htEnd⟩ := Option.isSome_iff_exists.mp hfind
    have hcheck : checkAllConditions
        ({ gf with context := ctx, executed := [] } : Graphflow V) ≠ none := by
      intro hnone
      rw [checkAllConditions, List.findSome?_eq_none_iff] at hnone
      obtain ⟨e0, he0, hbad0⟩ := hbad
      have := badConds_checkSrc_isSome _ e0.1 hbad0
      rw [hnone e0 he0] at this
      cases this
    obtain ⟨err, herr⟩ := Option.ne_none_iff_exists'.mp hcheck
    refine ⟨⟨{ gf with context := ctx, executed := [] }, some err, []⟩, err, ?_, rfl, ?_, rfl⟩
    · simp [Graphflow.Run, Graphflow.executeRun, Graphflow.validateTasks, htEnd, herr]
    · obtain ⟨a, _, ha⟩ := List.exists_of_findSome?_eq_some herr
      exact checkSrc_names gf.paths a.1 err ha
  · intro conds t h
    rcases h with h | ⟨hyn, hY, hN⟩
    · have hY : conds.contains .YES = false := by
        rw [List.contains, Bool.eq_false_iff]
        intro hmem
        cases h _ (List.elem_iff.mp hmem)
      have hN : conds.contains .NO = false := by
        rw [List.contains, Bool.eq_false_iff]
        intro hmem
        cases h _ (List.elem_iff.mp hmem)
      unfold checkSrcConditions
      split_ifs <;> simp_all
    · have hA : conds.contains .ALWAYS = false := by
        rw [List.contains, Bool.eq_false_iff]
        intro hmem
        cases hyn _ (List.elem_iff.mp hmem) <;> simp_all
      unfold checkSrcConditions
      split_ifs <;> simp_all

/-- Witness for the amended C1: `gfC1w` has an End task and a source
with a `YES` edge but no `NO` edge, so `Run` reports the conflict for
that source without executing anything. -/
theorem c1_witness :
    ∃ r err, gfC1w.Run ⟨[]⟩ = some r ∧ r.error = some err ∧
      errNamesConflict gfC1w.paths err ∧ r.trace = [] :=
  c1_outcome_validation.1 Nat gfC1w ⟨[]⟩ (by decide) (by decide)

/-! ## The duplicate-group-membership check -/

theorem drop_cons_get {α : Type} (l : List α) :
    ∀ (j : Nat) (g : α) (rest : List α), l.drop j = g :: rest →
    l.get? j = some g ∧ l.drop (j + 1) = rest := by
  induction l with
  | nil => intro j g rest h; simp at h
  | cons a l ih =>
    intro j g rest h
    cases j with
    | zero =>
      simp only [List.drop] at h
      cases h
      exact ⟨rfl, rfl⟩
    | succ j => exact ih j g rest h

theorem findOtherGroup_some (i t : TaskId) (allGroups : List TaskGroup)
    (g' : TaskGroup) :
    ∀ (l : List TaskGroup) (j0 : Nat), allGroups.drop j0 = l →
    findOtherGroup i t j0 l = some g' →
    ∃ j, j ≠ i ∧ allGroups.get? j = some g' ∧ t ∈ g'.tasks := by
  intro l
  induction l with
  | nil => intro j0 _ h; simp [findOtherGroup] at h
  | cons g rest ih =>
    intro j0 hdrop h
    obtain ⟨hget, hdrop'⟩ := drop_cons_get allGroups j0 g rest hdrop
    unfold findOtherGroup at h
    split at h
    · rename_i hc
      cases h
      exact ⟨j0, fun he => hc.1 he.symm, hget, List.elem_iff.mp hc.2⟩
    · exact ih (j0 + 1) hdrop' h

theorem findOtherGroup_none (i t : TaskId) (allGroups : List TaskGroup) :
    ∀ (l : List TaskGroup) (j0 : Nat), allGroups.drop j0 = l →
    findOtherGroup i t j0 l = none →
    ∀ j g', j0 ≤ j → j ≠ i → allGroups.get? j = some g' → t ∉ g'.tasks := by
  intro l
  induction l with
  | nil =>
    intro j0 hdrop _ j g' hj _ hget
    have hlen : allGroups.length ≤ j0 := by
      rw [← List.drop_eq_nil_iff]
      exact hdrop
    rw [List.get?_eq_none.mpr (le_trans hlen hj)] at hget
    cases hget
  | cons g rest ih =>
    intro j0 hdrop h j g' hj hne hget
    obtain ⟨hget0, hdrop'⟩ := drop_cons_get allGroups j0 g rest hdrop
    unfold findOtherGroup at h
    split at h
    · cases h
    · rename_i hc
      rcases Nat.eq_or_lt_of_le hj with heq | hlt
      · subst heq
        rw [hget0] at hget
        cases hget
        intro hmem
        exact hc ⟨fun he => hne he.symm, List.elem_iff.mpr hmem⟩
      · exact ih (j0 + 1) hdrop' h j g' hlt hne hget

theorem checkGroupsAux_some_shape (allGroups : List TaskGroup) :
    ∀ (l : List TaskGroup) (i : Nat) (e : GFError), allGroups.drop i = l →
    checkGroupsAux allGroups i l = some e →
    ∃ t g1 g2 j k gj gk, e = .taskInTwoGroups t g1 g2 ∧ j ≠ k ∧
      allGroups.get? j = some gj ∧ allGroups.get? k = some gk ∧
      t ∈ gj.tasks ∧ t ∈ gk.tasks ∧ gj.name = g1 ∧ gk.name = g2 := by
  intro l
  induction l with
  | nil => intro i e _ h; simp [checkGroupsAux] at h
  | cons g rest ih =>
    intro i e hdrop h
    obtain ⟨hget, hdrop'⟩ := drop_cons_get allGroups i g rest hdrop
    unfold checkGroupsAux at h
    split at h
    · rename_i e' heq
      cases h
      obtain ⟨t, htmem, ht⟩ := List.exists_of_findSome?_eq_some heq
      obtain ⟨g', hg', hmap⟩ := Option.map_eq_some'.mp ht
      obtain ⟨j, hji, hjget, hjmem⟩ :=
        findOtherGroup_some i t allGroups g' allGroups 0 rfl hg'
      exact ⟨t, g.name, g'.name, i, j, g, g', hmap.symm, fun he => hji he.symm,
        hget, hjget, htmem, hjmem, rfl, rfl⟩
    · exact ih (i + 1) e hdrop' h

theorem checkGroupsAux_none_sound (allGroups : List TaskGroup) :
    ∀ (l : List TaskGroup) (i : Nat), allGroups.drop i = l →
    checkGroupsAux allGroups i l = none →
    ∀ j k gj gk t, i ≤ j → j ≠ k → allGroups.get? j = some gj →
      allGroups.get? k = some gk → t ∈ gj.tasks → t ∉ gk.tasks := by
  intro l
  induction l with
  | nil =>
    intro i hdrop _ j k gj gk t hij _ hjget _ _
    have hlen : allGroups.length ≤ i := by
      rw [← List.drop_eq_nil_iff]
      exact hdrop
    rw [List.get?_eq_none.mpr (le_trans hlen hij)] at hjget
    cases hjget
  | cons g rest ih =>
    intro i hdrop h j k gj gk t hij hjk hjget hkget hjmem
    obtain ⟨hget0, hdrop'⟩ := drop_cons_get allGroups i g rest hdrop
    unfold checkGroupsAux at h
    split at h
    · cases h
    · rename_i hnone
      rcases Nat.eq_or_lt_of_le hij with heq | hlt
      · subst heq
        rw [hget0] at hjget
        cases hjget
        have hinner := List.findSome?_eq_none_iff.mp hnone t hjmem
        rw [Option.map_eq_none'] at hinner
        exact findOtherGroup_none i t allGroups allGroups 0 rfl hinner k gk
          (Nat.zero_le k) (fun he => hjk he.symm) hkget
      · exact ih (i + 1) hdrop' h j k gj gk t hlt hjk hjget hkget hjmem

theorem checkGroups_none_iff (groups : List TaskGroup) :
    checkGroups groups = none ↔ ¬ SharedAcrossGroups groups := by
  constructor
  · intro h ⟨i, j, gi, gj, t, hij, hgi, hgj, hti, htj⟩
    exact checkGroupsAux_none_sound groups groups 0 rfl h i j gi gj t
      (Nat.zero_le i) hij hgi hgj hti htj
  · intro h
    cases hc : checkGroups groups with
    | none => rfl
    | some e =>
      obtain ⟨t, g1, g2, j, k, gj, gk, _, hjk, hjget, hkget, htj, htk, _, _⟩ :=
        checkGroupsAux_some_shape groups groups 0 e rfl hc
      exact absurd ⟨j, k, gj, gk, t, hjk, hjget, hkget, htj, htk⟩ h

theorem checkAllConditions_reset {V : Type} (gf : Graphflow V)
    (c : ExecutionContext V) :
    checkAllConditions ({ gf with context := c, executed := [] } : Graphflow V) =
      checkAllConditions gf := rfl

/-! ## C6: a task in two different groups -/

/-- C6 fails as literally stated: in `gfC6x` task 5 belongs to the two
distinct groups "A" and "B", but the graph also lacks an End-kind task
and that check runs first, so `Run` returns the missing-end error — an
error naming no task and no group — rather than one naming task 5 and
the two group names. -/
theorem c6_counterexample :
    (gfC6x.Run ⟨[]⟩).map RunResult.proj = some (⟨[]⟩, [], some .noEndTask, []) ∧
    GFError.noEndTask ≠ GFError.taskInTwoGroups 5 "A" "B" := by
  constructor
  · rfl
  · decide

/-- C6 (amended): provided the earlier validation checks pass (an
End-kind task exists and no source has a conflicting outcome set), a
graph in which some task belongs to two different registered groups
makes `Run` return a validation error naming such a task and the names
of both groups containing it, and no task's `Execute` is invoked. -/
theorem c6_duplicate_group (V : Type) (gf : Graphflow V) (ctx : ExecutionContext V)
    (hend : ∃ t ∈ gf.tasks, (gf.defs t).isEnd = true)
    (hconds : checkAllConditions gf = none)
    (hshared : SharedAcrossGroups gf.taskGroups) :
    ∃ r t g1 g2, gf.Run ctx = some r ∧
      r.error = some (.taskInTwoGroups t g1 g2) ∧ r.trace = [] ∧
      ∃ j k gj gk, j ≠ k ∧ gf.taskGroups.get? j = some gj ∧
        gf.taskGroups.get? k = some gk ∧ t ∈ gj.tasks ∧ t ∈ gk.tasks ∧
        gj.name = g1 ∧ gk.name = g2 := by
  have hfind : ({ gf with context := ctx, executed := [] } : Graphflow V).findEndTask.isSome
      = true := by
    rw [Graphflow.findEndTask, List.find?_isSome]
    exact hend
  obtain ⟨tEnd, htEnd⟩ := Option.isSome_iff_exists.mp hfind
  have hgroups : checkGroups gf.taskGroups ≠ none := by
    rw [Ne, checkGroups_none_iff]
    exact fun hn => hn hshared
  cases hc : checkGroups gf.taskGroups with
  | none => exact absurd hc hgroups
  | some e =>
    obtain ⟨t, g1, g2, j, k, gj, gk, he, hjk, hjget, hkget, htj, htk, hn1, hn2⟩ :=
      checkGroupsAux_some_shape gf.taskGroups gf.taskGroups 0 e rfl hc
    subst he
    refine ⟨⟨{ gf with context := ctx, executed := [] },
      some (.taskInTwoGroups t g1 g2), []⟩, t, g1, g2, ?_, rfl, rfl,
      j, k, gj, gk, hjk, hjget, hkget, htj, htk, hn1, hn2⟩
    simp [Graphflow.Run, Graphflow.executeRun, Graphflow.validateTasks, htEnd,
      checkAllConditions_reset, hconds, hc]

/-- Witness for the amended C6 at `gfC6w` (task 7 in groups "A" and
"B"). -/
theorem c6_witness :
    ∃ r t g1 g2, gfC6w.Run ⟨[]⟩ = some r ∧
      r.error = some (.taskInTwoGroups t g1 g2) ∧ r.trace = [] ∧
      ∃ j k gj gk, j ≠ k ∧ gfC6w.taskGroups.get? j = some gj ∧
        gfC6w.taskGroups.get? k = some gk ∧ t ∈ gj.tasks ∧ t ∈ gk.tasks ∧
        gj.name = g1 ∧ gk.name = g2 :=
  c6_duplicate_group Nat gfC6w ⟨[]⟩ (by decide) (by rfl)
    ⟨0, 1, ⟨"A", [7]⟩, ⟨"B", [7]⟩, 7, by decide, rfl, rfl, by decide, by decide⟩

/-! ## C10: duplicates inside a single group are never rejected -/

/-- C10: the duplicate-membership validation compares only pairs of
distinct groups, so whenever no task is shared by two different groups
the group check passes — regardless of how many times a task repeats
inside one group's own task list — and such a graph can still `Run` to
success, as the concrete graph `gfC10w` (task 0 listed twice in its
single group) shows. -/
theorem c10_intragroup_dup_allowed :
    (∀ (groups : List TaskGroup), ¬ SharedAcrossGroups groups →
      checkGroups groups = none) ∧
    (gfC10w.Run ⟨[]⟩).map RunResult.proj = some (⟨[]⟩, [0], none, [0]) := by
  constructor
  · intro groups h
    exact (checkGroups_none_iff groups).mpr h
  · rfl

/-- Witness for C10: the single group `["A" ↦ [0, 0]]` (task 0 twice in
one group, no second group) passes the group check. -/
theorem c10_witness : checkGroups [⟨"A", [0, 0]⟩] = none := by
  refine c10_intragroup_dup_allowed.1 _ ?_
  rintro ⟨i, j, gi, gj, t, hij, hgi, hgj, -, -⟩
  obtain ⟨hi, -⟩ := List.get?_eq_some.mp hgi
  obtain ⟨hj, -⟩ := List.get?_eq_some.mp hgj
  simp only [List.length_singleton, Nat.lt_one_iff] at hi hj
  exact hij (hi.trans hj.symm)

/-! ## Termination of the traversal loop -/

theorem contains_eq_false_iff (l : List TaskId) (a : TaskId) :
    l.contains a = false ↔ a ∉ l := by
  rw [Bool.eq_false_iff]
  exact not_congr List.elem_iff

theorem mem_insertVisited_self (v : List TaskId) (t : TaskId) :
    t ∈ insertVisited v t := by
  rw [insertVisited]
  split
  · rename_i hc
    exact List.elem_iff.mp hc
  · simp

theorem mem_insertVisited_of_mem (v : List TaskId) (t u : TaskId) (h : u ∈ v) :
    u ∈ insertVisited v t := by
  rw [insertVisited]
  split
  · exact h
  · simp [h]

theorem mem_insertVisited_iff (v : List TaskId) (t u : TaskId) :
    u ∈ insertVisited v t ↔ u ∈ v ∨ u = t := by
  rw [insertVisited]
  split
  · rename_i hc
    constructor
    · exact Or.inl
    · rintro (h | rfl)
      · exact h
      · exact List.elem_iff.mp hc
  · simp

theorem insertVisited_toFinset (v : List TaskId) (t : TaskId) :
    (insertVisited v t).toFinset = insert t v.toFinset := by
  ext x
  simp [mem_insertVisited_iff, or_comm, eq_comm]

theorem lookupPath_mem_targets (paths : List (TaskId × PathCondition × TaskId))
    (src : TaskId) (cond : PathCondition) (tgt : TaskId)
    (h : lookupPath paths src cond = some tgt) : tgt ∈ pathTargets paths := by
  rw [lookupPath] at h
  obtain ⟨e, he, h2⟩ := Option.map_eq_some'.mp h
  subst h2
  have hmem := List.mem_reverse.mp (List.mem_of_find?_eq_some he)
  rw [pathTargets, List.mem_toFinset]
  exact List.mem_map.mpr ⟨e, hmem, rfl⟩

theorem execLoop_total {V : Type} (defs : TaskId → TaskImpl V)
    (paths : List (TaskId × PathCondition × TaskId)) :
    ∀ (fuel : Nat) (st : LoopState V), loopMeasure paths st < fuel →
    (execLoop defs paths fuel st).isSome = true := by
  intro fuel
  induction fuel with
  | zero => intro st h; exact absurd h (Nat.not_lt_zero _)
  | succ fuel ih =>
    intro st h
    obtain ⟨sctx, sexits, squeue, svis, strace⟩ := st
    cases squeue with
    | nil => simp [execLoop]
    | cons task rest =>
      rcases hexec : (defs task).executeTask sctx (sexits task) with ⟨err, ctx', p'⟩
      cases err with
      | some msg => simp [execLoop, hexec]
      | none =>
        have hmono : ((pathTargets paths \ (insertVisited svis task).toFinset).card)
            ≤ (pathTargets paths \ svis.toFinset).card := by
          apply Finset.card_le_card
          apply Finset.sdiff_subset_sdiff (le_refl _)
          rw [insertVisited_toFinset]
          exact Finset.subset_insert _ _
        rw [loopMeasure] at h
        simp only [List.length_cons] at h
        cases hlook : lookupPath paths task p' with
        | some tgt =>
          by_cases hc : (insertVisited svis task).contains tgt = true
          · simp only [execLoop, hexec, hlook, hc, if_true]
            apply ih
            rw [loopMeasure]
            simp only
            omega
          · rw [Bool.not_eq_true] at hc
            simp only [execLoop, hexec, hlook, hc, Bool.false_eq_true, if_false]
            apply ih
            rw [loopMeasure]
            simp only [List.length_append, List.length_cons, List.length_nil]
            have htgtT : tgt ∈ pathTargets paths :=
              lookupPath_mem_targets paths task p' tgt hlook
            have htgtV : tgt ∉ (insertVisited svis task).toFinset := by
              rw [List.mem_toFinset]
              exact (contains_eq_false_iff _ _).mp hc
            have hlt : ((pathTargets paths \
                (insertVisited (insertVisited svis task) tgt).toFinset).card)
                < (pathTargets paths \ (insertVisited svis task).toFinset).card := by
              rw [insertVisited_toFinset (insertVisited svis task) tgt,
                Finset.sdiff_insert]
              exact Finset.card_erase_lt_of_mem
                (Finset.mem_sdiff.mpr ⟨htgtT, htgtV⟩)
            omega
        | none =>
          simp only [execLoop, hexec, hlook]
          apply ih
          rw [loopMeasure]
          simp only
          omega

theorem execLoop_error_shape {V : Type} (defs : TaskId → TaskImpl V)
    (paths : List (TaskId × PathCondition × TaskId)) :
    ∀ (fuel : Nat) (st : LoopState V) (r : LoopResult V),
    execLoop defs paths fuel st = some r →
    r.error = none ∨ ∃ msg, r.error = some (.taskFailed msg) := by
  intro fuel
  induction fuel with
  | zero => intro st r h; cases h
  | succ fuel ih =>
    intro st r h
    obtain ⟨sctx, sexits, squeue, svis, strace⟩ := st
    cases squeue with
    | nil =>
      simp only [execLoop] at h
      cases h
      exact Or.inl rfl
    | cons task rest =>
      rcases hexec : (defs task).executeTask sctx (sexits task) with ⟨err, ctx', p'⟩
      cases err with
      | some msg =>
        simp only [execLoop, hexec] at h
        cases h
        exact Or.inr ⟨msg, rfl⟩
      | none =>
        cases hlook : lookupPath paths task p' with
        | some tgt =>
          by_cases hc : (insertVisited svis task).contains tgt = true
          · simp only [execLoop, hexec, hlook, hc, if_true] at h
            exact ih _ _ h
          · rw [Bool.not_eq_true] at hc
            simp only [execLoop, hexec, hlook, hc, Bool.false_eq_true, if_false] at h
            exact ih _ _ h
        | none =>
          simp only [execLoop, hexec, hlook] at h
          exact ih _ _ h

theorem execLoop_trace_nodup {V : Type} (defs : TaskId → TaskImpl V)
    (paths : List (TaskId × PathCondition × TaskId)) :
    ∀ (fuel : Nat) (st : LoopState V) (r : LoopResult V),
    (st.trace ++ st.queue).Nodup →
    (∀ t ∈ st.trace, t ∈ st.visited) →
    (∀ t ∈ st.queue.tail, t ∈ st.visited) →
    execLoop defs paths fuel st = some r → r.trace.Nodup := by
  intro fuel
  induction fuel with
  | zero => intro st r _ _ _ h; cases h
  | succ fuel ih =>
    intro st r h1 h2 h3 h
    obtain ⟨sctx, sexits, squeue, svis, strace⟩ := st
    cases squeue with
    | nil =>
      simp only [execLoop] at h
      cases h
      simpa using h1
    | cons task rest =>
      simp only at h1 h2 h3
      have htask_new : strace ++ [task] = strace ++ [task] := rfl
      have hnd : (strace ++ [task] ++ rest).Nodup := by
        rw [List.append_assoc]
        exact h1
      have htrace' : ∀ t ∈ strace ++ [task], t ∈ insertVisited svis task := by
        intro t ht
        rcases List.mem_append.mp ht with ht | ht
        · exact mem_insertVisited_of_mem _ _ _ (h2 t ht)
        · rw [List.mem_singleton.mp ht]
          exact mem_insertVisited_self _ _
      have hrest : ∀ t ∈ rest, t ∈ insertVisited svis task := by
        intro t ht
        exact mem_insertVisited_of_mem _ _ _ (h3 t ht)
      rcases hexec : (defs task).executeTask sctx (sexits task) with ⟨err, ctx', p'⟩
      cases err with
      | some msg =>
        simp only [execLoop, hexec] at h
        cases h
        exact (List.nodup_append.mp hnd).1
      | none =>
        cases hlook : lookupPath paths task p' with
        | some tgt =>
          by_cases hc : (insertVisited svis task).contains tgt = true
          · simp only [execLoop, hexec, hlook, hc, if_true] at h
            refine ih _ _ ?_ ?_ ?_ h
            · simpa only [List.append_assoc] using h1
            · exact htrace'
            · intro t ht
              exact hrest t (List.mem_of_mem_tail ht)
          · rw [Bool.not_eq_true] at hc
            have htgt : tgt ∉ insertVisited svis task :=
              (contains_eq_false_iff _ _).mp hc
            simp only [execLoop, hexec, hlook, hc, Bool.false_eq_true, if_false] at h
            refine ih _ _ ?_ ?_ ?_ h
            · simp only
              have : strace ++ [task] ++ (rest ++ [tgt]) =
                  (strace ++ [task] ++ rest) ++ [tgt] := by
                simp [List.append_assoc]
              rw [this, List.nodup_append]
              refine ⟨hnd, List.nodup_singleton _, ?_⟩
              intro x hx hx'
              rw [List.mem_singleton.mp hx'] at hx
              rcases List.mem_append.mp hx with hx | hx
              · exact htgt (htrace' tgt hx)
              · exact htgt (hrest tgt hx)
            · intro t ht
              exact mem_insertVisited_of_mem _ _ _ (htrace' t ht)
            · intro t ht
              rcases List.mem_append.mp (List.mem_of_mem_tail ht) with hx | hx
              · exact mem_insertVisited_of_mem _ _ _ (hrest t hx)
              · rw [List.mem_singleton.mp hx]
                exact mem_insertVisited_self _ _
        | none =>
          simp only [execLoop, hexec, hlook] at h
          refine ih _ _ ?_ ?_ ?_ h
          · simpa only [List.append_assoc] using h1
          · exact htrace'
          · intro t ht
            exact hrest t (List.mem_of_mem_tail ht)

theorem findStartTask_reset {V : Type} (gf : Graphflow V) (c : ExecutionContext V) :
    Graphflow.findStartTask { gf with context := c, executed := [] } =
      gf.findStartTask := rfl

theorem stdFuel_reset {V : Type} (gf : Graphflow V) (c : ExecutionContext V) :
    stdFuel ({ gf with context := c, executed := [] } : Graphflow V) =
      stdFuel gf := rfl

theorem initMeasure_lt {V : Type} (paths : List (TaskId × PathCondition × TaskId))
    (c : ExecutionContext V) (ex : TaskId → PathCondition) (s : TaskId) :
    loopMeasure paths ⟨c, ex, [s], [], []⟩ < paths.length + 2 := by
  rw [loopMeasure]
  simp only [List.length_singleton, List.toFinset_nil, Finset.sdiff_empty]
  have h := List.toFinset_card_le (paths.map (fun e => e.2.2))
  rw [List.length_map] at h
  rw [pathTargets]
  omega

theorem executeRun_total_nodup {V : Type} (gf : Graphflow V) :
    ∃ r, gf.executeRun = some r ∧ r.trace.Nodup := by
  rw [Graphflow.executeRun]
  cases hv : gf.validateTasks with
  | some e => exact ⟨_, rfl, List.nodup_nil⟩
  | none =>
    cases hs : gf.findStartTask with
    | none => exact ⟨_, rfl, List.nodup_nil⟩
    | some s =>
      obtain ⟨lr, hlr⟩ := Option.isSome_iff_exists.mp
        (execLoop_total gf.defs gf.paths (stdFuel gf)
          ⟨gf.context, gf.exits, [s], [], []⟩ (initMeasure_lt gf.paths _ _ s))
      have hnd : lr.trace.Nodup :=
        execLoop_trace_nodup gf.defs gf.paths (stdFuel gf) _ lr (by simp)
          (by simp) (by simp) hlr
      obtain ⟨lerr, lctx, lexits, lvis, ltrace⟩ := lr
      dsimp only
      rw [hlr]
      cases lerr with
      | some e => exact ⟨_, rfl, hnd⟩
      | none => exact ⟨_, rfl, hnd⟩

/-! ## C9: the traversal loop terminates, executing each task at most once -/

/-- C9: for every graph (cycles and self-loops in the edge table
included) and every context, `Run` with its standard fuel returns a
result — the queue empties after at most `stdFuel` iterations, because a
target is only enqueued when not yet visited and is marked visited at
that moment — and no task is executed twice: the trace of `Execute`
invocations has no duplicates. -/
theorem c9_termination (V : Type) (gf : Graphflow V) (ctx : ExecutionContext V) :
    ∃ r, gf.Run ctx = some r ∧ r.trace.Nodup := by
  rw [Graphflow.Run]
  exact executeRun_total_nodup _

/-! ## C5: dead-ending is success; End need not be reached -/

/-- C5: for every graph that passes validation and has a Start-kind
task, `Run` returns a result whose error can only be `none` (the queue
emptied — a natural terminus, reached whenever the current task has no
outgoing edge matching its selected outcome, whether or not the End task
was ever visited) or a task's own execution failure; no structural error
can arise during traversal.  In particular a graph with no edges at all
but one Start and one End task (`gfC5`) runs to success with the visited
set exactly the start task. -/
theorem c5_deadend_success :
    (∀ (V : Type) (gf : Graphflow V) (ctx : ExecutionContext V),
      gf.validateTasks = none → gf.findStartTask.isSome = true →
      ∃ r, gf.Run ctx = some r ∧
        (r.error = none ∨ ∃ msg, r.error = some (.taskFailed msg))) ∧
    (gfC5.Run ⟨[]⟩).map RunResult.proj = some (⟨[]⟩, [0], none, [0]) := by
  constructor
  · intro V gf ctx hv hs
    obtain ⟨s, hs⟩ := Option.isSome_iff_exists.mp hs
    simp only [Graphflow.Run, Graphflow.executeRun, validateTasks_reset,
      findStartTask_reset, stdFuel_reset, hv, hs]
    obtain ⟨lr, hlr⟩ := Option.isSome_iff_exists.mp
      (execLoop_total gf.defs gf.paths (stdFuel gf)
        ⟨ctx, gf.exits, [s], [], []⟩ (initMeasure_lt gf.paths _ _ s))
    have hshape := execLoop_error_shape gf.defs gf.paths (stdFuel gf) _ lr hlr
    obtain ⟨lerr, lctx, lexits, lvis, ltrace⟩ := lr
    rw [hlr]
    cases lerr with
    | some e =>
      rcases hshape with hnone | ⟨msg, hmsg⟩
      · cases hnone
      · simp only at hmsg
        cases hmsg
        exact ⟨_, rfl, Or.inr ⟨msg, rfl⟩⟩
    | none => exact ⟨_, rfl, Or.inl rfl⟩
  · rfl

/-- Witness for C5's general part at `gfC5` (valid, Start present): the
run returns, and not with a structural error. -/
theorem c5_witness :
    ∃ r, gfC5.Run ⟨[]⟩ = some r ∧
      (r.error = none ∨ ∃ msg, r.error = some (.taskFailed msg)) :=
  c5_deadend_success.1 Nat gfC5 ⟨[]⟩ rfl rfl

/-! ## C8: re-running with a fresh identical context -/

theorem executeTask_builtin {V : Type} (i : TaskImpl V) (h : i.isBuiltin = true)
    (ctx : ExecutionContext V) (p : PathCondition) :
    i.executeTask ctx p = (none, ctx, p) := by
  cases i with
  | startTask => rfl
  | endTask => rfl
  | custom body =>
    simp [TaskImpl.isBuiltin, TaskImpl.isStart, TaskImpl.isEnd] at h

theorem updateExits_builtin_agree {V : Type} (defs : TaskId → TaskImpl V)
    (E1 E2 : TaskId → PathCondition) (task : TaskId) (p : PathCondition)
    (h : ∀ t, (defs t).isBuiltin = true → E1 t = E2 t) :
    ∀ t, (defs t).isBuiltin = true →
      updateExits E1 task p t = updateExits E2 task p t := by
  intro t ht
  rw [updateExits, updateExits]
  split
  · rfl
  · exact h t ht

theorem execLoop_builtin_exits {V : Type} (defs : TaskId → TaskImpl V)
    (paths : List (TaskId × PathCondition × TaskId)) :
    ∀ (fuel : Nat) (st : LoopState V) (r : LoopResult V),
    execLoop defs paths fuel st = some r →
    ∀ t, (defs t).isBuiltin = true → r.exits t = st.exits t := by
  intro fuel
  induction fuel with
  | zero => intro st r h; cases h
  | succ fuel ih =>
    intro st r h t ht
    obtain ⟨sctx, sexits, squeue, svis, strace⟩ := st
    cases squeue with
    | nil =>
      simp only [execLoop] at h
      cases h
      rfl
    | cons task rest =>
      have hupd : ∀ p', updateExits sexits task p' t = sexits t ∨
          ((defs task).isBuiltin = true ∧ t = task) := by
        intro p'
        rw [updateExits]
        split
        · rename_i hteq
          subst hteq
          exact Or.inr ⟨ht, rfl⟩
        · exact Or.inl rfl
      rcases hexec : (defs task).executeTask sctx (sexits task) with ⟨err, ctx', p'⟩
      have hbp : (defs task).isBuiltin = true → p' = sexits task ∧ err = none := by
        intro hb
        rw [executeTask_builtin (defs task) hb] at hexec
        cases hexec
        exact ⟨rfl, rfl⟩
      have hupd2 : updateExits sexits task p' t = sexits t := by
        rcases hupd p' with h' | ⟨hb, hteq⟩
        · exact h'
        · subst hteq
          rw [updateExits, if_pos rfl, (hbp hb).1]
      cases err with
      | some msg =>
        simp only [execLoop, hexec] at h
        cases h
        exact hupd2
      | none =>
        cases hlook : lookupPath paths task p' with
        | some tgt =>
          by_cases hc : (insertVisited svis task).contains tgt = true
          · simp only [execLoop, hexec, hlook, hc, if_true] at h
            rw [ih _ _ h t ht]
            exact hupd2
          · rw [Bool.not_eq_true] at hc
            simp only [execLoop, hexec, hlook, hc, Bool.false_eq_true, if_false] at h
            rw [ih _ _ h t ht]
            exact hupd2
        | none =>
          simp only [execLoop, hexec, hlook] at h
          rw [ih _ _ h t ht]
          exact hupd2

theorem execLoop_obs_congr {V : Type} (defs : TaskId → TaskImpl V)
    (paths : List (TaskId × PathCondition × TaskId)) (hdet : CustomDet defs) :
    ∀ (fuel : Nat) (q vis tr : List TaskId) (ctx : ExecutionContext V)
      (E1 E2 : TaskId → PathCondition),
    (∀ t, (defs t).isBuiltin = true → E1 t = E2 t) →
    Option.map LoopResult.obs (execLoop defs paths fuel ⟨ctx, E1, q, vis, tr⟩) =
      Option.map LoopResult.obs (execLoop defs paths fuel ⟨ctx, E2, q, vis, tr⟩) := by
  intro fuel
  induction fuel with
  | zero => intro q vis tr ctx E1 E2 _; rfl
  | succ fuel ih =>
    intro q vis tr ctx E1 E2 hEE
    cases q with
    | nil => rfl
    | cons task rest =>
      have hstep : ∃ err ctx' p',
          (defs task).executeTask ctx (E1 task) = (err, ctx', p') ∧
          (defs task).executeTask ctx (E2 task) = (err, ctx', p') := by
        cases hd : defs task with
        | startTask =>
          have hex : E1 task = E2 task := hEE task (by rw [hd]; rfl)
          exact ⟨none, ctx, E2 task, by rw [TaskImpl.executeTask, hex], rfl⟩
        | endTask =>
          have hex : E1 task = E2 task := hEE task (by rw [hd]; rfl)
          exact ⟨none, ctx, E2 task, by rw [TaskImpl.executeTask, hex], rfl⟩
        | custom body =>
          have hbody : body ctx (E1 task) = body ctx (E2 task) :=
            hdet task body hd ctx (E1 task) (E2 task)
          rcases hb2 : body ctx (E2 task) with ⟨err, ctx', p'⟩
          refine ⟨err, ctx', p', ?_, ?_⟩
          · show body ctx (E1 task) = (err, ctx', p')
            rw [hbody, hb2]
          · show body ctx (E2 task) = (err, ctx', p')
            rw [hb2]
      obtain ⟨err, ctx', p', hexec1, hexec2⟩ := hstep
      cases err with
      | some msg =>
        simp only [execLoop, hexec1, hexec2, Option.map_some', LoopResult.obs]
      | none =>
        cases hlook : lookupPath paths task p' with
        | some tgt =>
          by_cases hc : (insertVisited vis task).contains tgt = true
          · simp only [execLoop, hexec1, hexec2, hlook, hc, if_true]
            exact ih _ _ _ _ _ _
              (updateExits_builtin_agree defs E1 E2 task p' hEE)
          · rw [Bool.not_eq_true] at hc
            simp only [execLoop, hexec1, hexec2, hlook, hc, Bool.false_eq_true,
              if_false]
            exact ih _ _ _ _ _ _
              (updateExits_builtin_agree defs E1 E2 task p' hEE)
        | none =>
          simp only [execLoop, hexec1, hexec2, hlook]
          exact ih _ _ _ _ _ _
            (updateExits_builtin_agree defs E1 E2 task p' hEE)

theorem validateTasks_congr {V : Type} (gfA gfB : Graphflow V)
    (ht : gfB.tasks = gfA.tasks) (hd : gfB.defs = gfA.defs)
    (hg : gfB.taskGroups = gfA.taskGroups) (hp : gfB.paths = gfA.paths) :
    gfB.validateTasks = gfA.validateTasks := by
  rw [Graphflow.validateTasks, Graphflow.validateTasks, Graphflow.findEndTask,
    Graphflow.findEndTask, checkAllConditions, checkAllConditions, ht, hd, hg, hp]

theorem findStartTask_congr {V : Type} (gfA gfB : Graphflow V)
    (ht : gfB.tasks = gfA.tasks) (hd : gfB.defs = gfA.defs) :
    gfB.findStartTask = gfA.findStartTask := by
  rw [Graphflow.findStartTask, Graphflow.findStartTask, ht, hd]

theorem executeRun_obs_congr {V : Type} (gfA gfB : Graphflow V)
    (hdet : CustomDet gfA.defs)
    (ht : gfB.tasks = gfA.tasks) (hd : gfB.defs = gfA.defs)
    (hg : gfB.taskGroups = gfA.taskGroups) (hp : gfB.paths = gfA.paths)
    (hctx : gfB.context = gfA.context) (hex : gfB.executed = gfA.executed)
    (hexits : ∀ t, (gfA.defs t).isBuiltin = true → gfB.exits t = gfA.exits t) :
    Option.map RunResult.proj gfB.executeRun =
      Option.map RunResult.proj gfA.executeRun := by
  have hfuel : stdFuel gfB = stdFuel gfA := by rw [stdFuel, stdFuel, hp]
  rw [Graphflow.executeRun, Graphflow.executeRun,
    validateTasks_congr gfA gfB ht hd hg hp, findStartTask_congr gfA gfB ht hd,
    hd, hp, hctx, hfuel]
  cases hv : gfA.validateTasks with
  | some e => simp [RunResult.proj, hctx, hex]
  | none =>
    cases hs : gfA.findStartTask with
    | none => simp [RunResult.proj, hctx, hex]
    | some s =>
      dsimp only
      have hobs := execLoop_obs_congr gfA.defs gfA.paths hdet (stdFuel gfA)
        [s] [] [] gfA.context gfB.exits gfA.exits hexits
      cases hA : execLoop gfA.defs gfA.paths (stdFuel gfA)
          ⟨gfA.context, gfA.exits, [s], [], []⟩ with
      | none =>
        rw [hA, Option.map_none'] at hobs
        rw [Option.map_eq_none'.mp hobs]
      | some lrA =>
        rw [hA, Option.map_some'] at hobs
        cases hB : execLoop gfA.defs gfA.paths (stdFuel gfA)
            ⟨gfA.context, gfB.exits, [s], [], []⟩ with
        | none =>
          rw [hB, Option.map_none'] at hobs
          cases hobs
        | some lrB =>
          rw [hB, Option.map_some'] at hobs
          obtain ⟨berr, bctx, bexits, bvis, btr⟩ := lrB
          obtain ⟨aerr, actx, aexits, avis, atr⟩ := lrA
          simp only [LoopResult.obs, Option.some.injEq, Prod.mk.injEq] at hobs
          obtain ⟨rfl, rfl, rfl, rfl⟩ := hobs
          cases berr with
          | some e => simp [RunResult.proj, hex]
          | none => simp [RunResult.proj]

theorem run_static {V : Type} (gf : Graphflow V) (ctx : ExecutionContext V)
    (r : RunResult V) (h : gf.Run ctx = some r) :
    r.graph.tasks = gf.tasks ∧ r.graph.defs = gf.defs ∧
    r.graph.taskGroups = gf.taskGroups ∧ r.graph.paths = gf.paths ∧
    (∀ t, (gf.defs t).isBuiltin = true → r.graph.exits t = gf.exits t) := by
  rw [Graphflow.Run, Graphflow.executeRun] at h
  split at h
  · cases h
    exact ⟨rfl, rfl, rfl, rfl, fun t _ => rfl⟩
  · split at h
    · cases h
      exact ⟨rfl, rfl, rfl, rfl, fun t _ => rfl⟩
    · rename_i s hs
      split at h
      · cases h
      · rename_i lr hloop
        have hexits := execLoop_builtin_exits _ _ _ _ lr hloop
        split at h
        · cases h
          exact ⟨rfl, rfl, rfl, rfl, fun t hb => hexits t hb⟩
        · cases h
          exact ⟨rfl, rfl, rfl, rfl, fun t hb => hexits t hb⟩

/-- C8: running the same graph object twice in a row, each time with a
fresh context holding identical initial entries, yields identical final
context values, identical visited sets, the same returned error and the
same execution trace — the second run is unaffected by state left over
from the first, including each task's selected outcome.  `CustomDet` is
the claim's "deterministic task logic" hypothesis: each custom task's
`Execute` behaves as a function of the shared context alone (it does not
read its own leftover exit path). -/
theorem c8_idempotent_rerun (V : Type) (gf : Graphflow V) (ctx : ExecutionContext V)
    (hdet : CustomDet gf.defs) (r1 r2 : RunResult V)
    (h1 : gf.Run ctx = some r1) (h2 : r1.graph.Run ctx = some r2) :
    r2.graph.context = r1.graph.context ∧ r2.graph.executed = r1.graph.executed ∧
    r2.error = r1.error ∧ r2.trace = r1.trace := by
  obtain ⟨ht, hd, hg, hp, he⟩ := run_static gf ctx r1 h1
  have hobs : Option.map RunResult.proj
      (Graphflow.executeRun { r1.graph with context := ctx, executed := [] }) =
      Option.map RunResult.proj
        (Graphflow.executeRun { gf with context := ctx, executed := [] }) := by
    apply executeRun_obs_congr
    · exact hdet
    · exact ht
    · exact hd
    · exact hg
    · exact hp
    · rfl
    · rfl
    · intro t hb
      exact he t hb
  rw [Graphflow.Run] at h1 h2
  rw [h1, h2] at hobs
  simp only [Option.map_some', Option.some.injEq, RunResult.proj,
    Prod.mk.injEq] at hobs
  exact ⟨hobs.1, hobs.2.1, hobs.2.2.1, hobs.2.2.2⟩

/-- Witness for C8 at `gfC8w`: two consecutive runs with the fresh empty
context agree on final context, visited set, error and trace. -/
theorem c8_witness :
    ∃ r1 r2, gfC8w.Run ⟨[]⟩ = some r1 ∧ r1.graph.Run ⟨[]⟩ = some r2 ∧
      (r2.graph.context = r1.graph.context ∧
        r2.graph.executed = r1.graph.executed ∧
        r2.error = r1.error ∧ r2.trace = r1.trace) := by
  refine ⟨_, _, rfl, rfl, c8_idempotent_rerun Nat gfC8w ⟨[]⟩ ?_ _ _ rfl rfl⟩
  intro t body hb ctx0 p p'
  by_cases h0 : t = 0
  · rw [h0] at hb
    simp [gfC8w, emptyGF] at hb
  · by_cases h2 : t = 2
    · rw [h2] at hb
      simp [gfC8w, emptyGF] at hb
    · simp [gfC8w, emptyGF, h0, h2] at hb
      rw [← hb]

/-! ## C2: failure aborts the run; what the graph then exposes -/

theorem execLoop_fail_spec {V : Type} (defs : TaskId → TaskImpl V)
    (paths : List (TaskId × PathCondition × TaskId)) :
    ∀ (fuel : Nat) (st : LoopState V) (r : LoopResult V) (msg : String),
    execLoop defs paths fuel st = some r →
    r.error = some (.taskFailed msg) →
    ∃ pre t, r.trace = pre ++ [t] ∧
      ∃ ctxIn pIn p', (defs t).executeTask ctxIn pIn = (some msg, r.ctx, p') := by
  intro fuel
  induction fuel with
  | zero => intro st r msg h; cases h
  | succ fuel ih =>
    intro st r msg h herr
    obtain ⟨sctx, sexits, squeue, svis, strace⟩ := st
    cases squeue with
    | nil =>
      simp only [execLoop] at h
      cases h
      exact absurd herr (by simp)
    | cons task rest =>
      rcases hexec : (defs task).executeTask sctx (sexits task) with ⟨err, ctx', p'⟩
      cases err with
      | some m =>
        simp only [execLoop, hexec] at h
        cases h
        simp only [Option.some.injEq, GFError.taskFailed.injEq] at herr
        subst herr
        exact ⟨strace, task, rfl, sctx, sexits task, p', hexec⟩
      | none =>
        cases hlook : lookupPath paths task p' with
        | some tgt =>
          by_cases hc : (insertVisited svis task).contains tgt = true
          · simp only [execLoop, hexec, hlook, hc, if_true] at h
            exact ih _ _ _ h herr
          · rw [Bool.not_eq_true] at hc
            simp only [execLoop, hexec, hlook, hc, Bool.false_eq_true, if_false] at h
            exact ih _ _ _ h herr
        | none =>
          simp only [execLoop, hexec, hlook] at h
          exact ih _ _ _ h herr

/-- C2 fails as literally stated: in `gfC2x` the start task and the
failing task execute (trace `[0, 1]`), the context keeps the mutation
`"k" ↦ 9` applied before the failure, and `Run` returns the failing
task's own error — but the observable visited set `executed` is `[]`,
not `[0, 1]`: the internally accumulated visited set is discarded on
failure (`gf.executed = visited` only runs after a clean loop). -/
theorem c2_counterexample :
    (gfC2x.Run ⟨[]⟩).map RunResult.proj =
      some (⟨[("k", 9)]⟩, [], some (.taskFailed "boom"), [0, 1]) ∧
    ([] : List TaskId) ≠ [0, 1] := by
  constructor
  · rfl
  · decide

/-- C2 (amended): on every run in which some visited task's `Execute`
returns an error, `Run` returns exactly that error immediately and no
later task executes — the failing task `t` is the final entry of the
trace of `Execute` invocations, it executed only once, and the returned
error wraps precisely the message its `Execute` call produced; the
`ExecutionContext` retains all mutations applied before the failure (no
rollback) — the context stored on the graph is exactly the context that
failing `Execute` call left behind; but the graph's observable visited
set after a failed `Run` is empty, not the tasks executed so far,
because `execute` only stores the accumulated visited map after a clean
loop.  The concrete conjunct at `gfC2x` exhibits all of this at one
input (trace `[0, 1]`, task 2 never executed, mutation `"k" ↦ 9`
retained, error `"boom"`, empty visited set). -/
theorem c2_failfast_no_rollback :
    (∀ (V : Type) (gf : Graphflow V) (ctx : ExecutionContext V) (r : RunResult V)
      (msg : String), gf.Run ctx = some r → r.error = some (.taskFailed msg) →
      r.graph.executed = [] ∧
      ∃ pre t, r.trace = pre ++ [t] ∧ t ∉ pre ∧
        ∃ ctxIn pIn p', (gf.defs t).executeTask ctxIn pIn =
          (some msg, r.graph.context, p')) ∧
    (gfC2x.Run ⟨[]⟩).map RunResult.proj =
      some (⟨[("k", 9)]⟩, [], some (.taskFailed "boom"), [0, 1]) := by
  constructor
  · intro V gf ctx r msg hrun herr
    rw [Graphflow.Run, Graphflow.executeRun] at hrun
    split at hrun
    · rename_i e hv
      cases hrun
      simp only at herr
      cases herr
      have := validateTasks_structural _ _ hv
      cases this
    · split at hrun
      · cases hrun
        simp only at herr
        cases herr
      · rename_i s hs
        split at hrun
        · cases hrun
        · rename_i lr hloop
          have hnd : lr.trace.Nodup :=
            execLoop_trace_nodup _ _ _ _ lr (by simp) (by simp) (by simp) hloop
          split at hrun
          · rename_i e heq
            cases hrun
            simp only at herr
            cases herr
            refine ⟨rfl, ?_⟩
            obtain ⟨pre, t, htr, hcall⟩ :=
              execLoop_fail_spec _ _ _ _ lr msg hloop heq
            refine ⟨pre, t, htr, ?_, hcall⟩
            rw [htr] at hnd
            have hdisj := (List.nodup_append.mp hnd).2.2
            exact fun hmem => hdisj hmem (List.mem_singleton_self t)
          · cases hrun
            exact absurd herr (by simp)
  · rfl

/-- Witness for the amended C2 at `gfC2x`: the failed run's observable
visited set is empty, the failing task closes the trace, and the error
and final context are those its `Execute` produced. -/
theorem c2_witness :
    ∃ r, gfC2x.Run ⟨[]⟩ = some r ∧ r.graph.executed = [] ∧
      ∃ pre t, r.trace = pre ++ [t] ∧ t ∉ pre ∧
        ∃ ctxIn pIn p', (gfC2x.defs t).executeTask ctxIn pIn =
          (some "boom", r.graph.context, p') :=
  ⟨_, rfl, c2_failfast_no_rollback.1 Nat gfC2x ⟨[]⟩ _ "boom" rfl rfl⟩
